import Mathlib

/-!
# Verification of `gomill/sgf_reader.py`

A shallow embedding of the SGF reader: Python 2 byte strings become
`List Nat` (byte values), fallible code returns `Except String`, and the
tokeniser/parser are translated function by function.  Theorems below check
the natural-language specification of the reader against these definitions.
-/

/-- Python 2 byte strings: lists of byte values. -/
abbrev PyStr := List Nat

/-- `str.lower()` under the default (C) locale: maps `A`-`Z` to `a`-`z`,
leaves every other byte unchanged. -/
def lowerByte (b : Nat) : Nat := if 65 ≤ b ∧ b ≤ 90 then b + 32 else b

/-- `s.lower()` on a byte string. -/
def pyLower (s : PyStr) : PyStr := s.map lowerByte

/-- Bytes of an ASCII Lean string literal (convenience for concrete inputs). -/
def pyBytes (s : String) : PyStr := s.data.map Char.toNat

/-- Whether a byte is an ASCII letter (used to state what the spec calls a
"letter"). -/
def letterByte (b : Nat) : Prop := (65 ≤ b ∧ b ≤ 90) ∨ (97 ≤ b ∧ b ≤ 122)

instance (b : Nat) : Decidable (letterByte b) := by
  unfold letterByte; infer_instance

/-- `interpret_point(s, size)` from `sgf_reader.py` lines 44-69.

Lowercases the token; empty or `"tt"` (when `size <= 19`) is a pass
(`ok none`); otherwise unpacks exactly two bytes (any other length raises
`ValueError`), computes `col = ord(c1) - ord('a')`,
`row = size - (ord(c2) - ord('a')) - 1` and range-checks both. -/
def interpret_point (s0 : PyStr) (size : Int) : Except String (Option (Int × Int)) :=
  let s := pyLower s0
  if s = [] ∨ (s = [116, 116] ∧ size ≤ 19) then Except.ok none
  else
    match s with
    | [col_s, row_s] =>
      let col : Int := (col_s : Int) - 97
      if ¬(0 ≤ col ∧ col < size) then Except.error "ValueError"
      else
        let row : Int := size - ((row_s : Int) - 97) - 1
        if ¬(0 ≤ row ∧ row < size) then Except.error "ValueError"
        else Except.ok (some (row, col))
    | _ => Except.error "ValueError"

/-- The amended C1 specification of `interpret_point`: after case-folding,
empty or legacy-`"tt"` (size at most 19) is a pass; otherwise the token is
exactly two bytes with `col = index(first)`, `row = size - 1 - index(second)`
where `index(c) = ord(lowercase c) - ord('a')`, and the call succeeds exactly
when both coordinates lie in `[0, size)`; any other length or out-of-range
coordinate is an error.  (Written from the claim's words, for comparison
with `interpret_point`.) -/
def pointSpec (s0 : PyStr) (size : Int) : Except String (Option (Int × Int)) :=
  let s := pyLower s0
  if s = [] ∨ (s = pyBytes "tt" ∧ size ≤ 19) then Except.ok none
  else
    match s with
    | [c1, c2] =>
      let col : Int := (c1 : Int) - 97
      let row : Int := size - 1 - ((c2 : Int) - 97)
      if 0 ≤ col ∧ col < size ∧ 0 ≤ row ∧ row < size then Except.ok (some (row, col))
      else Except.error "ValueError"
    | _ => Except.error "ValueError"

theorem pyBytes_tt : pyBytes "tt" = [116, 116] := by decide

/-- Case-folding is idempotent on bytes. -/
theorem lowerByte_lowerByte (b : Nat) : lowerByte (lowerByte b) = lowerByte b := by
  simp only [lowerByte]
  split_ifs <;> omega

theorem pyLower_pyLower (s : PyStr) : pyLower (pyLower s) = pyLower s := by
  simp [pyLower, List.map_map, Function.comp_def, lowerByte_lowerByte]

/-- C1 (amended): `interpret_point` case-folds its token (lowercasing first
changes nothing), and agrees everywhere with the amended specification:
pass on empty or legacy `"tt"` with `size ≤ 19`; otherwise success exactly
for two-byte tokens whose `col = index(first)` and
`row = size - 1 - index(second)` both lie in `[0, size)`, where
`index(c) = ord(lowercase c) - ord('a')`; any other length or out-of-range
coordinate is an error. -/
theorem interpret_point_spec (s : PyStr) (size : Int) :
    interpret_point s size = pointSpec s size ∧
    interpret_point (pyLower s) size = interpret_point s size := by
  constructor
  · simp only [interpret_point, pointSpec, pyBytes_tt]
    generalize pyLower s = l
    rcases l with _ | ⟨a, _ | ⟨b, _ | ⟨c, t⟩⟩⟩
    · simp
    · simp
    · have hr : size - ((b : Int) - 97) - 1 = size - 1 - ((b : Int) - 97) := by omega
      simp only [List.cons.injEq, and_true, List.cons_ne_nil, false_or, hr]
      split_ifs <;> first | rfl | omega
    · simp
  · unfold interpret_point
    rw [pyLower_pyLower]

/-- C1 counterexample: the claim says a non-letter character is a format
violation, but on a 27x27 board the byte `'\x7b'` (123, one past `'z'`) has
letter index 26, which is in range, so `interpret_point "\x7b\x7b" 27`
succeeds with the ordinary point `(0, 26)` instead of erroring. -/
theorem interpret_point_nonletter_accepted :
    ¬ letterByte 123 ∧ interpret_point [123, 123] 27 = Except.ok (some (0, 26)) := by
  constructor
  · decide
  · rfl

/-- C4: for every board size and every in-range `(row, col)`, encoding the
coordinate as the two-byte token (first byte `ord('a') + col`, second byte
`ord('a') + (size - 1 - row)`) and interpreting it with `interpret_point`
round-trips to the same `(row, col)`. -/
theorem interpret_point_roundtrip (size row col : Int)
    (hr0 : 0 ≤ row) (hr : row < size) (hc0 : 0 ≤ col) (hc : col < size) :
    interpret_point [(97 + col).toNat, (97 + (size - 1 - row)).toNat] size =
      Except.ok (some (row, col)) := by
  have hb1 : ((97 + col).toNat : Int) = 97 + col := Int.toNat_of_nonneg (by omega)
  have hb2 : ((97 + (size - 1 - row)).toNat : Int) = 97 + (size - 1 - row) :=
    Int.toNat_of_nonneg (by omega)
  have hl1 : lowerByte (97 + col).toNat = (97 + col).toNat := by
    simp only [lowerByte]; rw [if_neg]; omega
  have hl2 : lowerByte (97 + (size - 1 - row)).toNat = (97 + (size - 1 - row)).toNat := by
    simp only [lowerByte]; rw [if_neg]; omega
  have hpass : ¬(([(97 + col).toNat, (97 + (size - 1 - row)).toNat] : PyStr) = [116, 116] ∧
      size ≤ 19) := by
    rintro ⟨h, hs⟩
    simp only [List.cons.injEq, and_true] at h
    omega
  simp only [interpret_point, pyLower, List.map_cons, List.map_nil, hl1, hl2]
  rw [if_neg (by simp only [List.cons.injEq, and_true, List.cons_ne_nil, false_or]; omega)]
  simp only [hb1, hb2]
  rw [if_neg (by omega), if_neg (by omega)]
  congr 3 <;> omega

/-- Witness for C4 at `size = 5`, `row = 2`, `col = 3`: the encoded token is
`[100, 99]` (`"dc"`) and interpreting it returns `(2, 3)`. -/
theorem interpret_point_roundtrip_witness :
    interpret_point [100, 99] 5 = Except.ok (some (2, 3)) := by
  have h := interpret_point_roundtrip 5 2 3 (by norm_num) (by norm_num) (by norm_num)
    (by norm_num)
  norm_num at h
  exact h

/-- C10: for every board size greater than 19, `"tt"` is not a pass: it is
the ordinary board point `(size - 20, 19)`. -/
theorem interpret_point_tt_large_board (size : Int) (h : 19 < size) :
    interpret_point [116, 116] size = Except.ok (some (size - 20, 19)) := by
  simp only [interpret_point, pyLower, List.map_cons, List.map_nil]
  have hl : lowerByte 116 = 116 := by decide
  rw [hl]
  rw [if_neg (by simp only [List.cons.injEq, and_true, List.cons_ne_nil, false_or]; omega)]
  norm_num
  rw [if_neg (by omega), if_neg (by omega)]
  congr 3
  omega

/-- Witness for C10 at `size = 20`: `"tt"` is the point `(0, 19)`. -/
theorem interpret_point_tt_large_board_witness :
    interpret_point [116, 116] 20 = Except.ok (some (0, 19)) := by
  have h := interpret_point_tt_large_board 20 (by norm_num)
  norm_num at h
  exact h

/-- `_newline_re.sub("\n", s)`: every `\n\r`, `\r\n`, lone `\n` or lone `\r`
becomes a single `\n` (10), scanning left to right with the regex's
alternative order. -/
def normalizeNewlines : PyStr → PyStr
  | [] => []
  | 10 :: 13 :: rest => 10 :: normalizeNewlines rest
  | 13 :: 10 :: rest => 10 :: normalizeNewlines rest
  | 10 :: rest => 10 :: normalizeNewlines rest
  | 13 :: rest => 10 :: normalizeNewlines rest
  | c :: rest => c :: normalizeNewlines rest

/-- `string.maketrans("\t\f\v", "   ")`: tab, form feed and vertical tab map
to a space. -/
def translateByte (b : Nat) : Nat := if b = 9 ∨ b = 12 ∨ b = 11 then 32 else b

def translateWs (s : PyStr) : PyStr := s.map translateByte

/-- Whether a byte is special for `_chunk_re` (`\n` or `\\`). -/
def chunkSpecial (b : Nat) : Prop := b = 10 ∨ b = 92

instance (b : Nat) : Decidable (chunkSpecial b) := by
  unfold chunkSpecial; infer_instance

/-- `_chunk_re.findall(s)`: splits the string into maximal runs of
non-special bytes and single-byte `"\n"` / `"\\"` chunks.  `acc` holds the
reversed pending run. -/
def chunksAux (acc : PyStr) : PyStr → List PyStr
  | [] => if acc = [] then [] else [acc.reverse]
  | c :: rest =>
    if chunkSpecial c then
      (if acc = [] then [] else [acc.reverse]) ++ [c] :: chunksAux [] rest
    else
      chunksAux (c :: acc) rest

/-- The chunk loop of `value_as_text`: an escaped chunk other than `"\n"` is
appended, `"\\"` sets the escape flag, anything else is copied. -/
def processChunks (escaped : Bool) : List PyStr → List PyStr
  | [] => []
  | ch :: rest =>
    if escaped then
      if ch = [10] then processChunks false rest else ch :: processChunks false rest
    else if ch = [92] then processChunks true rest
    else ch :: processChunks false rest

/-- `value_as_text(s)` from `sgf_reader.py` lines 18-42: newline
normalisation, whitespace mapping, then the chunk-based escape loop. -/
def value_as_text (s : PyStr) : PyStr :=
  (processChunks false (chunksAux [] (translateWs (normalizeNewlines s)))).flatten

/-- The claim's byte-at-a-time escape processing: a backslash followed by a
newline contributes nothing, a backslash followed by any other byte
contributes that byte, an unescaped byte is copied, and a trailing
backslash contributes nothing.  (Written from the claim's words.) -/
def escSpec : Bool → PyStr → PyStr
  | _, [] => []
  | true, c :: rest => (if c = 10 then [] else [c]) ++ escSpec false rest
  | false, c :: rest => if c = 92 then escSpec true rest else c :: escSpec false rest

theorem reverse_ne_of_noSpecial (acc : PyStr) (b : Nat) (hb : chunkSpecial b)
    (hacc : ∀ c ∈ acc, ¬ chunkSpecial c) : acc.reverse ≠ [b] := by
  intro he
  have hmem : b ∈ acc := by
    have : b ∈ acc.reverse := by rw [he]; simp
    simpa using this
  exact hacc b hmem hb

theorem pc_false_backslash (tail : List PyStr) :
    processChunks false (([92] : PyStr) :: tail) = processChunks true tail := by
  simp [processChunks]

theorem pc_false_copy (ch : PyStr) (tail : List PyStr) (h : ch ≠ [92]) :
    processChunks false (ch :: tail) = ch :: processChunks false tail := by
  simp [processChunks, h]

theorem pc_true_nl (tail : List PyStr) :
    processChunks true (([10] : PyStr) :: tail) = processChunks false tail := by
  simp [processChunks]

theorem pc_true_other (ch : PyStr) (tail : List PyStr) (h : ch ≠ [10]) :
    processChunks true (ch :: tail) = ch :: processChunks false tail := by
  simp [processChunks, h]

theorem chunksAux_nil_of (acc : PyStr) (h : acc ≠ []) : chunksAux acc [] = [acc.reverse] := by
  simp [chunksAux, h]

theorem chunksAux_special (acc : PyStr) (c : Nat) (rest : PyStr) (hc : chunkSpecial c)
    (h : acc ≠ []) : chunksAux acc (c :: rest) = acc.reverse :: [c] :: chunksAux [] rest := by
  simp [chunksAux, hc, h]

theorem chunksAux_special_nil (c : Nat) (rest : PyStr) (hc : chunkSpecial c) :
    chunksAux [] (c :: rest) = [c] :: chunksAux [] rest := by
  simp [chunksAux, hc]

theorem chunksAux_push (acc : PyStr) (c : Nat) (rest : PyStr) (hc : ¬ chunkSpecial c) :
    chunksAux acc (c :: rest) = chunksAux (c :: acc) rest := by
  simp [chunksAux, hc]

theorem escSpec_false_cons (c : Nat) (rest : PyStr) (h : c ≠ 92) :
    escSpec false (c :: rest) = c :: escSpec false rest := by
  simp [escSpec, h]

theorem escSpec_false_backslash (rest : PyStr) :
    escSpec false (92 :: rest) = escSpec true rest := by
  simp [escSpec]

theorem escSpec_true_nl (rest : PyStr) : escSpec true (10 :: rest) = escSpec false rest := by
  simp [escSpec]

theorem escSpec_true_other (c : Nat) (rest : PyStr) (h : c ≠ 10) :
    escSpec true (c :: rest) = c :: escSpec false rest := by
  simp [escSpec, h]

/-- The chunk-based escape loop agrees with the byte-at-a-time escape
processing, for every pending-run accumulator made of non-special bytes. -/
theorem processChunks_chunksAux (l : PyStr) :
    ∀ acc : PyStr, (∀ c ∈ acc, ¬ chunkSpecial c) →
      ((processChunks false (chunksAux acc l)).flatten = acc.reverse ++ escSpec false l ∧
       (acc ≠ [] → (processChunks true (chunksAux acc l)).flatten =
          acc.reverse ++ escSpec false l) ∧
       (acc = [] → (processChunks true (chunksAux acc l)).flatten = escSpec true l)) := by
  induction l with
  | nil =>
    intro acc hacc
    refine ⟨?_, fun h => ?_, fun h => ?_⟩
    · rcases eq_or_ne acc [] with h | h
      · subst h; simp [chunksAux, processChunks, escSpec]
      · rw [chunksAux_nil_of acc h,
          pc_false_copy _ _ (reverse_ne_of_noSpecial acc 92 (by decide) hacc)]
        simp [processChunks, escSpec]
    · rw [chunksAux_nil_of acc h,
        pc_true_other _ _ (reverse_ne_of_noSpecial acc 10 (by decide) hacc)]
      simp [processChunks, escSpec]
    · subst h; simp [chunksAux, processChunks, escSpec]
  | cons c rest ih =>
    intro acc hacc
    have ihn := ih [] (by simp)
    by_cases hsp : chunkSpecial c
    · have h10ne92 : (([10] : PyStr)) ≠ [92] := by decide
      have h92ne10 : (([92] : PyStr)) ≠ [10] := by decide
      refine ⟨?_, fun h => ?_, fun h => ?_⟩
      · rcases eq_or_ne acc [] with ha | ha
        · subst ha
          rw [chunksAux_special_nil c rest hsp]
          rcases hsp with h10 | h92
          · subst h10
            rw [pc_false_copy _ _ h10ne92, List.flatten_cons, ihn.1,
              escSpec_false_cons 10 rest (by decide)]
            simp
          · subst h92
            rw [pc_false_backslash, escSpec_false_backslash, ihn.2.2 rfl]
            simp
        · rw [chunksAux_special acc c rest hsp ha,
            pc_false_copy _ _ (reverse_ne_of_noSpecial acc 92 (by decide) hacc),
            List.flatten_cons]
          rcases hsp with h10 | h92
          · subst h10
            rw [pc_false_copy _ _ h10ne92, List.flatten_cons, ihn.1,
              escSpec_false_cons 10 rest (by decide)]
            simp
          · subst h92
            rw [pc_false_backslash, escSpec_false_backslash, ihn.2.2 rfl]
      · rw [chunksAux_special acc c rest hsp h,
          pc_true_other _ _ (reverse_ne_of_noSpecial acc 10 (by decide) hacc),
          List.flatten_cons]
        rcases hsp with h10 | h92
        · subst h10
          rw [pc_false_copy _ _ h10ne92, List.flatten_cons, ihn.1,
            escSpec_false_cons 10 rest (by decide)]
          simp
        · subst h92
          rw [pc_false_backslash, escSpec_false_backslash, ihn.2.2 rfl]
      · subst h
        rw [chunksAux_special_nil c rest hsp]
        rcases hsp with h10 | h92
        · subst h10
          rw [pc_true_nl, ihn.1, escSpec_true_nl]
          simp
        · subst h92
          rw [pc_true_other _ _ h92ne10, List.flatten_cons, ihn.1,
            escSpec_true_other 92 rest (by decide)]
          simp
    · have hacc' : ∀ x ∈ c :: acc, ¬ chunkSpecial x := by
        intro x hx
        rcases List.mem_cons.mp hx with h | h
        · subst h; exact hsp
        · exact hacc x h
      have ihc := ih (c :: acc) hacc'
      have hc92 : c ≠ 92 := by simp [chunkSpecial] at hsp; omega
      have hc10 : c ≠ 10 := by simp [chunkSpecial] at hsp; omega
      refine ⟨?_, fun h => ?_, fun h => ?_⟩
      · rw [chunksAux_push acc c rest hsp, ihc.1, escSpec_false_cons c rest hc92]
        simp
      · rw [chunksAux_push acc c rest hsp, ihc.2.1 (by simp),
          escSpec_false_cons c rest hc92]
        simp
      · subst h
        rw [chunksAux_push [] c rest hsp, ihc.2.1 (by simp),
          escSpec_true_other c rest hc10]
        simp

/-- C3: `value_as_text` is total (a Lean function) and, after line-break
normalisation and whitespace mapping, processes backslash escapes byte for
byte: backslash-newline contributes nothing, backslash-other contributes the
other byte literally, unescaped bytes are copied, and a trailing backslash
contributes nothing (`escSpec` discards the final escape state).  The three
concrete scenarios from the spec are included. -/
theorem value_as_text_spec :
    (∀ s : PyStr, value_as_text s = escSpec false (translateWs (normalizeNewlines s))) ∧
    value_as_text (pyBytes "a\\\\bc") = pyBytes "a\\bc" ∧
    value_as_text (pyBytes "ab\\\nc") = pyBytes "abc" ∧
    value_as_text (pyBytes "ab\\\\\nc") = pyBytes "ab\\\nc" := by
  refine ⟨fun s => ?_, by decide, by decide, by decide⟩
  have h := (processChunks_chunksAux (translateWs (normalizeNewlines s)) [] (by simp)).1
  simpa [value_as_text] using h

/-- `s.partition(":")`: the part before the first `':'` (58), whether a
`':'` occurred, and the part after it. -/
def partitionColon (s : PyStr) : PyStr × Bool × PyStr :=
  if 58 ∈ s then (s.takeWhile (· ≠ 58), true, s.drop ((s.takeWhile (· ≠ 58)).length + 1))
  else (s, false, [])

/-- One iteration of the loop in `interpret_compressed_point_list`
(`sgf_reader.py` lines 84-101): a token with a `':'` is a rectangle whose
corners must satisfy `bottom <= top and left <= right` (unpacking a pass
corner raises `TypeError`, converted to `ValueError`); the double `for`
loop adds the inclusive cross product; a single point must not be a pass. -/
def icplStep (size : Int) (result : Finset (Int × Int)) (s : PyStr) :
    Except String (Finset (Int × Int)) :=
  let (p1, is_rectangle, p2) := partitionColon s
  if is_rectangle then
    match interpret_point p1 size, interpret_point p2 size with
    | Except.ok (some (top, left)), Except.ok (some (bottom, right)) =>
      if ¬(bottom ≤ top ∧ left ≤ right) then Except.error "ValueError"
      else Except.ok (result ∪ Finset.Icc bottom top ×ˢ Finset.Icc left right)
    | _, _ => Except.error "ValueError"
  else
    match interpret_point p1 size with
    | Except.ok none => Except.error "ValueError"
    | Except.ok (some pt) => Except.ok (insert pt result)
    | Except.error e => Except.error e

/-- `interpret_compressed_point_list(values, size)` from `sgf_reader.py`
lines 71-102: fold `icplStep` over the tokens starting from the empty set. -/
def interpret_compressed_point_list (values : List PyStr) (size : Int) :
    Except String (Finset (Int × Int)) :=
  values.foldlM (icplStep size) ∅

/-- A token that `interpret_point` accepts contains no `':'` byte: every
accepted or pass token is empty, `"tt"`-shaped, or two bytes whose lowered
values are at least `'a'` = 97 (and `lowerByte 58 = 58 < 97`). -/
theorem interpret_point_ok_no_colon (p : PyStr) (size : Int) (r : Option (Int × Int))
    (h : interpret_point p size = Except.ok r) : 58 ∉ p := by
  intro hmem
  have hm : (58 : Nat) ∈ pyLower p := by
    simp only [pyLower, List.mem_map]
    exact ⟨58, hmem, by decide⟩
  rw [interpret_point] at h
  revert h hm
  generalize pyLower p = l
  intro heq hm58
  rcases l with _ | ⟨a, _ | ⟨b, _ | ⟨c, t⟩⟩⟩
  · simp at hm58
  · simp at heq
  · simp only [List.mem_cons, List.not_mem_nil, or_false] at hm58
    by_cases hpass : ([a, b] : PyStr) = [] ∨ (([a, b] : PyStr) = [116, 116] ∧ size ≤ 19)
    · rcases hpass with h' | ⟨h', _⟩
      · simp at h'
      · simp only [List.cons.injEq, and_true] at h'
        omega
    · rw [if_neg hpass] at heq
      simp only at heq
      split_ifs at heq with h1 h2
      rcases hm58 with hm | hm <;> omega
  · simp at heq

theorem takeWhile_append_colon (p1 p2 : PyStr) (h : 58 ∉ p1) :
    (p1 ++ 58 :: p2).takeWhile (· ≠ 58) = p1 := by
  induction p1 with
  | nil => simp [List.takeWhile_cons]
  | cons a p1 ih =>
    have ha : a ≠ 58 := by
      intro he
      exact h (by simp [he])
    have h' : 58 ∉ p1 := fun hm => h (by simp [hm])
    have := ih h'
    simp only [List.cons_append, List.takeWhile_cons]
    rw [if_pos (by simpa using ha)]
    simpa using this

theorem drop_append_colon (p1 p2 : PyStr) : (p1 ++ 58 :: p2).drop (p1.length + 1) = p2 := by
  induction p1 with
  | nil => simp
  | cons a p1 ih =>
    simp only [List.cons_append, List.length_cons, List.drop_succ_cons]
    exact ih

theorem partitionColon_rect (p1 p2 : PyStr) (h : 58 ∉ p1) :
    partitionColon (p1 ++ 58 :: p2) = (p1, true, p2) := by
  rw [partitionColon, if_pos (by simp : (58 : Nat) ∈ p1 ++ 58 :: p2),
    takeWhile_append_colon p1 p2 h, drop_append_colon]

theorem partitionColon_single (p : PyStr) (h : 58 ∉ p) :
    partitionColon p = (p, false, []) := by
  rw [partitionColon, if_neg h]

theorem exceptOkBind {α β : Type} (a : α) (f : α → Except String β) :
    (Except.ok a >>= f : Except String β) = f a := rfl

theorem exceptErrBind {α β : Type} (e : String) (f : α → Except String β) :
    (Except.error e >>= f : Except String β) = Except.error e := rfl

theorem exceptPure {α : Type} (a : α) : (pure a : Except String α) = Except.ok a := rfl

/-- Evaluating one `icplStep` on a rectangle token whose corners are
ordinary points. -/
theorem icplStep_rect (size : Int) (result : Finset (Int × Int)) (p1 p2 : PyStr)
    (top left bottom right : Int)
    (h1 : interpret_point p1 size = Except.ok (some (top, left)))
    (h2 : interpret_point p2 size = Except.ok (some (bottom, right))) :
    icplStep size result (p1 ++ 58 :: p2) =
      if bottom ≤ top ∧ left ≤ right then
        Except.ok (result ∪ Finset.Icc bottom top ×ˢ Finset.Icc left right)
      else Except.error "ValueError" := by
  have hc := interpret_point_ok_no_colon p1 size _ h1
  rw [icplStep, partitionColon_rect p1 p2 hc]
  simp only [h1, h2]
  split_ifs <;> rfl

/-- Evaluating one `icplStep` on a single-point token that denotes a pass. -/
theorem icplStep_pass (size : Int) (result : Finset (Int × Int)) (p : PyStr)
    (h : interpret_point p size = Except.ok none) :
    icplStep size result p = Except.error "ValueError" := by
  have hc := interpret_point_ok_no_colon p size _ h
  rw [icplStep, partitionColon_single p hc]
  simp only [h]
  rfl

/-- C2: `interpret_compressed_point_list` treats a token with a `':'` as a
rectangle: with corner points `(top, left)` and `(bottom, right)` it
requires `bottom ≤ top` and `left ≤ right` (else `ValueError`), and on
success emits the inclusive cross product of the row and column ranges; a
single-point token denoting a pass is a `ValueError`; and the whole-board
rectangle supplied twice (overlapping tokens) still yields exactly
`size * size` points, deduplicated, with no error. -/
theorem icpl_spec (size : Int) :
    (∀ p1 p2 top left bottom right,
      interpret_point p1 size = Except.ok (some (top, left)) →
      interpret_point p2 size = Except.ok (some (bottom, right)) →
      ((bottom ≤ top ∧ left ≤ right →
         interpret_compressed_point_list [p1 ++ 58 :: p2] size =
           Except.ok (Finset.Icc bottom top ×ˢ Finset.Icc left right)) ∧
       (¬(bottom ≤ top ∧ left ≤ right) →
         interpret_compressed_point_list [p1 ++ 58 :: p2] size =
           Except.error "ValueError"))) ∧
    (∀ p, interpret_point p size = Except.ok none →
      interpret_compressed_point_list [p] size = Except.error "ValueError") ∧
    (1 ≤ size →
      interpret_compressed_point_list
        [[97, 97, 58, (96 + size).toNat, (96 + size).toNat],
         [97, 97, 58, (96 + size).toNat, (96 + size).toNat]] size =
        Except.ok (Finset.Icc 0 (size - 1) ×ˢ Finset.Icc 0 (size - 1)) ∧
      (Finset.Icc (0 : Int) (size - 1) ×ˢ Finset.Icc (0 : Int) (size - 1)).card =
        size.toNat * size.toNat) := by
  refine ⟨?_, ?_, ?_⟩
  · intro p1 p2 top left bottom right h1 h2
    have hstep := icplStep_rect size ∅ p1 p2 top left bottom right h1 h2
    constructor
    · intro hord
      rw [if_pos hord] at hstep
      rw [interpret_compressed_point_list, List.foldlM_cons, hstep, exceptOkBind,
        List.foldlM_nil, exceptPure, Finset.empty_union]
    · intro hord
      rw [if_neg hord] at hstep
      rw [interpret_compressed_point_list, List.foldlM_cons, hstep, exceptErrBind]
  · intro p h
    rw [interpret_compressed_point_list, List.foldlM_cons, icplStep_pass size ∅ p h,
      exceptErrBind]
  · intro hs
    have h1 : interpret_point [97, 97] size = Except.ok (some (size - 1, 0)) := by
      have h := interpret_point_roundtrip size (size - 1) 0 (by omega) (by omega)
        (by omega) (by omega)
      have e1 : ((97 : Int) + 0).toNat = 97 := by decide
      have e2 : ((97 : Int) + (size - 1 - (size - 1))).toNat = 97 := by omega
      rw [e1, e2] at h
      exact h
    have h2 : interpret_point [(96 + size).toNat, (96 + size).toNat] size =
        Except.ok (some (0, size - 1)) := by
      have h := interpret_point_roundtrip size 0 (size - 1) (by omega) (by omega)
        (by omega) (by omega)
      have e1 : ((97 : Int) + (size - 1)).toNat = (96 + size).toNat := by omega
      have e2 : ((97 : Int) + (size - 1 - 0)).toNat = (96 + size).toNat := by omega
      rw [e1, e2] at h
      exact h
    have hord : (0 : Int) ≤ size - 1 ∧ (0 : Int) ≤ size - 1 := by omega
    have hstep0 := icplStep_rect size ∅ [97, 97] [(96 + size).toNat, (96 + size).toNat]
      (size - 1) 0 0 (size - 1) h1 h2
    have hstep1 := icplStep_rect size (Finset.Icc 0 (size - 1) ×ˢ Finset.Icc 0 (size - 1))
      [97, 97] [(96 + size).toNat, (96 + size).toNat] (size - 1) 0 0 (size - 1) h1 h2
    rw [if_pos hord] at hstep0 hstep1
    rw [Finset.empty_union] at hstep0
    rw [Finset.union_self] at hstep1
    simp only [List.cons_append, List.nil_append] at hstep0 hstep1
    constructor
    · rw [interpret_compressed_point_list, List.foldlM_cons, hstep0, exceptOkBind,
        List.foldlM_cons, hstep1, exceptOkBind, List.foldlM_nil, exceptPure]
    · have e : size - 1 + 1 - 0 = size := by ring
      simp [Finset.card_product, Int.card_Icc, e]

/-- Witness for C2 at `size = 2`: the rectangle `"aa:bb"` gives the four
board points, the empty (pass) token is rejected, and the misordered
rectangle `"bb:aa"` errors. -/
theorem icpl_spec_witness :
    interpret_compressed_point_list [[97, 97, 58, 98, 98]] 2 =
      Except.ok (Finset.Icc (0 : Int) 1 ×ˢ Finset.Icc (0 : Int) 1) ∧
    interpret_compressed_point_list [[98, 98, 58, 97, 97]] 2 =
      Except.error "ValueError" ∧
    interpret_compressed_point_list [[]] 2 = Except.error "ValueError" := by
  refine ⟨?_, ?_, ?_⟩
  · have h := ((icpl_spec 2).1 [97, 97] [98, 98] 1 0 0 1 rfl rfl).1 (by norm_num)
    simpa using h
  · have h := ((icpl_spec 2).1 [98, 98] [97, 97] 0 1 1 0 rfl rfl).2 (by norm_num)
    simpa using h
  · exact (icpl_spec 2).2.1 [] rfl

/-- Python whitespace (regex `\s`, also `str.strip()`): space, tab, LF, CR,
FF, VT. -/
def isWsByte (b : Nat) : Bool :=
  b = 32 || b = 9 || b = 10 || b = 13 || b = 12 || b = 11

def isUpperByte (b : Nat) : Bool := 65 ≤ b && b ≤ 90

/-- Tokens produced by `_tokenise`: delimiter byte, PropIdent, PropValue. -/
inductive SgfToken : Type
  | d (c : Nat)
  | i (s : PyStr)
  | v (s : PyStr)
  deriving DecidableEq

/-- After a `'('`: does `\s*;` match (optional whitespace then `';'`)? -/
def startsSemiAfterWs (l : PyStr) : Bool :=
  match l.dropWhile (fun b => isWsByte b) with
  | 59 :: _ => true
  | _ => false

/-- `_find_start_re.search` (regex `\(\s*;`): the suffix beginning at the
first `'('` that is followed, after optional whitespace, by `';'`. -/
def findStart : PyStr → Option PyStr
  | [] => none
  | c :: rest =>
    if c = 40 ∧ startsSemiAfterWs rest then some (c :: rest)
    else findStart rest

/-- Scanning a PropValue after `'['`: the raw bytes up to the first `']'`
not preceded by an odd number of backslashes; `none` when the input ends
first (the regex fails to match and tokenising stops). -/
def tokValueScan : PyStr → Bool → Option (PyStr × PyStr)
  | [], _ => none
  | c :: rest, true => (tokValueScan rest false).map (fun p => (c :: p.1, p.2))
  | c :: rest, false =>
    if c = 93 then some ([], rest)
    else if c = 92 then (tokValueScan rest true).map (fun p => (c :: p.1, p.2))
    else (tokValueScan rest false).map (fun p => (c :: p.1, p.2))

/-- `[A-Z]{1,8}` (greedy): up to eight uppercase bytes, and the remainder. -/
def tokIdentTake (l : PyStr) : PyStr × PyStr :=
  let run := (l.takeWhile (fun b => isUpperByte b)).take 8
  (run, l.drop run.length)

/-- The `_tokenise` matching loop (fuel-indexed; every step consumes at
least one byte, so `length + 1` fuel never runs out): skip whitespace, then
match a delimiter, a PropIdent, or a bracketed PropValue; stop at the end
of input or at the first unmatchable byte. -/
def tokF : Nat → PyStr → List SgfToken
  | 0, _ => []
  | fuel + 1, l =>
    match l.dropWhile (fun b => isWsByte b) with
    | [] => []
    | c :: rest =>
      if c = 59 ∨ c = 40 ∨ c = 41 then SgfToken.d c :: tokF fuel rest
      else if isUpperByte c then
        let p := tokIdentTake (c :: rest)
        SgfToken.i p.1 :: tokF fuel p.2
      else if c = 91 then
        match tokValueScan rest false with
        | some p => SgfToken.v p.1 :: tokF fuel p.2
        | none => []
      else []

/-- `_tokenise(s)` from `sgf_reader.py` lines 354-384: skip leading junk via
`findStart`, then run the matching loop. -/
def pyTokenise (s : PyStr) : List SgfToken :=
  match findStart s with
  | none => []
  | some suffix => tokF (suffix.length + 1) suffix

/-- An SGF `Node`: the `props_by_id` dict as an association list where
assignment appends and lookup takes the last binding (Python dict
semantics). -/
structure PNode : Type where
  props : List (PyStr × List PyStr)
  deriving DecidableEq

/-- `Node.add` (line 118): dict assignment. -/
def PNode.add (n : PNode) (identifier : PyStr) (values : List PyStr) : PNode :=
  ⟨n.props ++ [(identifier, values)]⟩

def PNode.lookup (n : PNode) (identifier : PyStr) : Option (List PyStr) :=
  (n.props.reverse.find? (fun p => p.1 = identifier)).map (fun p => p.2)

/-- `Node.get_raw` (lines 121-133): first raw value, `KeyError` as `none`. -/
def PNode.get_raw (n : PNode) (identifier : PyStr) : Option PyStr :=
  (n.lookup identifier).bind List.head?

/-- `Node.get_list` (lines 135-150): the raw list, with `[""]` (an empty
elist) becoming `[]`. -/
def PNode.get_list (n : PNode) (identifier : PyStr) : Option (List PyStr) :=
  (n.lookup identifier).map (fun l => if l = [[]] then [] else l)

/-- `Node.has_prop` (lines 168-170). -/
def PNode.has_prop (n : PNode) (identifier : PyStr) : Bool :=
  (n.lookup identifier).isSome

def newNode : PNode := ⟨[]⟩

def isDigitByte (b : Nat) : Bool := 48 ≤ b && b ≤ 57

def digitsToNat (l : PyStr) : Nat := l.foldl (fun a b => a * 10 + (b - 48)) 0

def pyStrip (s : PyStr) : PyStr :=
  ((s.dropWhile (fun b => isWsByte b)).reverse.dropWhile (fun b => isWsByte b)).reverse

/-- Python 2 `int(str)`: optional surrounding whitespace, an optional sign,
then a non-empty run of ASCII digits; anything else raises `ValueError`
(`none`). -/
def pyInt (s : PyStr) : Option Int :=
  match pyStrip s with
  | 43 :: ds =>
    if ds ≠ [] ∧ ds.all isDigitByte then some (digitsToNat ds) else none
  | 45 :: ds =>
    if ds ≠ [] ∧ ds.all isDigitByte then some (-(digitsToNat ds : Int)) else none
  | ds => if ds ≠ [] ∧ ds.all isDigitByte then some (digitsToNat ds) else none

/-- `Sgf_game_tree` after `_setup`: node list, root, and the cached size. -/
structure Sgf_game_tree : Type where
  nodes : List PNode
  root : PNode
  size : Int
  deriving DecidableEq

/-- `Sgf_game_tree._setup` (lines 238-248): `root = nodes[0]`;
`size = int(root.get_raw("SZ"))` with 19 only on `KeyError` (absent `SZ`);
an unparseable `SZ` raises `ValueError` here — that is, while `read_sgf` is
still running. -/
def treeSetup : List PNode → Except String Sgf_game_tree
  | [] => Except.error "IndexError"
  | root :: rest =>
    match root.get_raw [83, 90] with
    | none => Except.ok ⟨root :: rest, root, 19⟩
    | some raw =>
      match pyInt raw with
      | none => Except.error "ValueError: invalid literal for int()"
      | some n => Except.ok ⟨root :: rest, root, n⟩

/-- `node.add(...)` applied to the current node, which is the last one
appended to the tree. -/
def updateLast : List PNode → PyStr → List PyStr → List PNode
  | [], _, _ => []
  | [n], k, v => [n.add k v]
  | n :: m :: rest, k, v => n :: updateLast (m :: rest) k v

/-- The token loop of `read_sgf` (lines 406-436), one token per step.
`pending` holds the PropIdent and the values collected so far by the inner
`while` (lines 426-431); a non-value token first commits them to the
current node and is then handled exactly as the outer loop would handle it.
Exhausting the tokens raises `IndexError`, reported as "unexpected end of
SGF data"; a value token with nothing pending is "unexpected value"; an
empty value run is "property with no values". -/
def parseT : List SgfToken → List PNode → Option (PyStr × List PyStr) →
    Except String Sgf_game_tree
  | [], _, _ => Except.error "unexpected end of SGF data"
  | SgfToken.v _ :: _, _, none => Except.error "unexpected value"
  | SgfToken.d c :: rest, ns, none =>
    if c = 41 then treeSetup ns
    else if c = 59 then parseT rest (ns ++ [newNode]) none
    else parseT rest ns none
  | SgfToken.i pid :: rest, ns, none => parseT rest ns (some (pid, []))
  | SgfToken.v x :: rest, ns, some (pid, vals) => parseT rest ns (some (pid, vals ++ [x]))
  | t :: rest, ns, some (pid, vals) =>
    if vals = [] then Except.error "property with no values"
    else if ns = [] then Except.error "UnboundLocalError"
    else
      match t with
      | SgfToken.d c =>
        if c = 41 then treeSetup (updateLast ns pid vals)
        else if c = 59 then parseT rest (updateLast ns pid vals ++ [newNode]) none
        else parseT rest (updateLast ns pid vals) none
      | SgfToken.i pid2 => parseT rest (updateLast ns pid vals) (some (pid2, []))
      | SgfToken.v _ => Except.error "unreachable"

/-- `read_sgf(s)` from `sgf_reader.py` lines 386-438. -/
def read_sgf (s : PyStr) : Except String Sgf_game_tree :=
  parseT (pyTokenise s) [] none

theorem updateLast_append (ns : List PNode) (n : PNode) (k : PyStr) (v : List PyStr) :
    updateLast (ns ++ [n]) k v = ns ++ [n.add k v] := by
  induction ns with
  | nil => rfl
  | cons a ns ih =>
    cases ns with
    | nil => rfl
    | cons b ns2 =>
      simp only [List.cons_append, updateLast, List.append_eq] at ih ⊢
      rw [ih]

/-- C5: in the tree-builder loop: a `';'` token appends a fresh node, which
becomes the current (last) node; a `'('` token is a no-op; the first `')'`
finishes the tree immediately, its result independent of the remaining
tokens (they are discarded); and a property run attaches to the current
(last) node. -/
theorem read_sgf_builder_policy :
    (∀ rest ns, parseT (SgfToken.d 59 :: rest) ns none =
       parseT rest (ns ++ [newNode]) none) ∧
    (∀ rest ns, parseT (SgfToken.d 40 :: rest) ns none = parseT rest ns none) ∧
    (∀ rest ns, parseT (SgfToken.d 41 :: rest) ns none = treeSetup ns) ∧
    (∀ pid x c rest ns n,
       parseT (SgfToken.i pid :: SgfToken.v x :: SgfToken.d c :: rest)
           (ns ++ [n]) none =
         parseT (SgfToken.d c :: rest) (ns ++ [n.add pid [x]]) none) := by
  refine ⟨fun rest ns => rfl, fun rest ns => rfl, fun rest ns => rfl, ?_⟩
  intro pid x c rest ns n
  have hne : ns ++ [n] ≠ [] := by simp
  show parseT (SgfToken.d c :: rest) (ns ++ [n]) (some (pid, [x])) = _
  by_cases hc41 : c = 41
  · subst hc41
    simp only [parseT, updateLast_append]
    rw [if_neg (by simp), if_neg hne]
  · by_cases hc59 : c = 59
    · subst hc59
      simp only [parseT, updateLast_append]
      rw [if_neg (by simp), if_neg hne]
    · simp only [parseT, updateLast_append]
      rw [if_neg (by simp), if_neg hne]

/-- C6: `read_sgf` fails, returning an error and no partial game tree, on
the empty string (no game content found), on `"(;B[ag]"` (input exhausted
before the sequence is terminated), on `"(;B[ag)]"` (the `')'` is swallowed
by the unclosed bracket, so the sequence is never terminated), and on
`"(B[ag])"` (no `'('` followed by `';'`, so no start of content is found).
In every case the Python code reaches `tokens[index]` past the end and
turns the `IndexError` into `ValueError("unexpected end of SGF data")`. -/
theorem read_sgf_failure_cases :
    read_sgf (pyBytes "") = Except.error "unexpected end of SGF data" ∧
    read_sgf (pyBytes "(;B[ag]") = Except.error "unexpected end of SGF data" ∧
    read_sgf (pyBytes "(;B[ag)]") = Except.error "unexpected end of SGF data" ∧
    read_sgf (pyBytes "(B[ag])") = Except.error "unexpected end of SGF data" :=
  ⟨rfl, rfl, rfl, rfl⟩

/-- Every successful `parseT` run goes through `treeSetup` on some node
list (the `break` on `')'` followed by `tree._setup()`). -/
theorem parseT_ok_treeSetup (ts : List SgfToken) :
    ∀ ns pnd t, parseT ts ns pnd = Except.ok t →
      ∃ ns', treeSetup ns' = Except.ok t := by
  induction ts with
  | nil =>
    intro ns pnd t h
    simp [parseT] at h
  | cons tok rest ih =>
    intro ns pnd t h
    match tok, pnd with
    | SgfToken.v x, none => simp [parseT] at h
    | SgfToken.d c, none =>
      rw [parseT] at h
      split_ifs at h
      · exact ⟨ns, h⟩
      · exact ih _ _ _ h
      · exact ih _ _ _ h
    | SgfToken.i pid, none => exact ih _ _ _ h
    | SgfToken.v x, some (pid, vals) => exact ih _ _ _ h
    | SgfToken.d c, some (pid, vals) =>
      rw [parseT] at h
      split_ifs at h
      · exact ⟨updateLast ns pid vals, h⟩
      · exact ih _ _ _ h
      · exact ih _ _ _ h
    | SgfToken.i pid2, some (pid, vals) =>
      rw [parseT] at h
      split_ifs at h
      exact ih _ _ _ h

/-- C7 (amended): for every successfully parsed game tree, the cached size
is the integer value of the root's raw `SZ` property, or 19 when `SZ` is
absent.  (When `SZ` is present but unparseable, `read_sgf` itself fails —
eagerly, in `tree._setup()` at the end of parsing — so no tree exists; see
the counterexample theorem for the eager failure.) -/
theorem read_sgf_size_spec (s : PyStr) (t : Sgf_game_tree)
    (h : read_sgf s = Except.ok t) :
    (t.root.get_raw [83, 90] = none ∧ t.size = 19) ∨
    (∃ raw, t.root.get_raw [83, 90] = some raw ∧ pyInt raw = some t.size) := by
  obtain ⟨ns', hsetup⟩ := parseT_ok_treeSetup _ _ _ _ h
  match ns' with
  | [] => simp [treeSetup] at hsetup
  | root :: rest =>
    match hraw : root.get_raw [83, 90] with
    | none =>
      simp only [treeSetup, hraw, Except.ok.injEq] at hsetup
      subst hsetup
      exact Or.inl ⟨hraw, rfl⟩
    | some raw =>
      match hint : pyInt raw with
      | none =>
        simp only [treeSetup, hraw, hint] at hsetup
        exact absurd hsetup (by simp)
      | some n =>
        simp only [treeSetup, hraw, hint, Except.ok.injEq] at hsetup
        subst hsetup
        exact Or.inr ⟨raw, hraw, hint⟩

/-- C7 counterexample: the claim says a malformed `SZ` is raised lazily at
the first use of the size, not eagerly during `read_sgf` itself; but
`read_sgf "(;SZ[x])"` already fails (with the `int()` conversion error from
`_setup`, which `read_sgf` calls before returning), so the failure is
eager. -/
theorem read_sgf_size_eager_counterexample :
    read_sgf (pyBytes "(;SZ[x])") =
      Except.error "ValueError: invalid literal for int()" := rfl

/-- Witness for C7 at input `"(;SZ[9])"`: the parsed tree has `SZ` raw text
`"9"` and cached size 9. -/
theorem read_sgf_size_spec_witness :
    ((⟨[⟨[([83, 90], [[57]])]⟩], ⟨[([83, 90], [[57]])]⟩, 9⟩ :
        Sgf_game_tree).root.get_raw [83, 90] = none ∧
      (9 : Int) = 19) ∨
    (∃ raw, (⟨[⟨[([83, 90], [[57]])]⟩], ⟨[([83, 90], [[57]])]⟩, 9⟩ :
        Sgf_game_tree).root.get_raw [83, 90] = some raw ∧ pyInt raw = some 9) :=
  read_sgf_size_spec (pyBytes "(;SZ[9])") _ rfl

/-- `Sgf_game_tree.get_handicap` from `sgf_reader.py` lines 268-286:
absent `HA` (`KeyError`) gives `None`; `int()` failure raises `ValueError`;
value 0 becomes `None`; value 1 raises `ValueError`; any other parsed
integer is returned. -/
def get_handicap (t : Sgf_game_tree) : Except String (Option Int) :=
  match t.root.get_raw [72, 65] with
  | none => Except.ok none
  | some raw =>
    match pyInt raw with
    | none => Except.error "ValueError"
    | some handicap =>
      if handicap = 0 then Except.ok none
      else if handicap = 1 then Except.error "ValueError"
      else Except.ok (some handicap)

/-- C8 (amended): `get_handicap` returns "none" when `HA` is absent or has
value zero, errors when the raw text is unparseable or the value is exactly
1, and otherwise returns the parsed integer as-is — including values below
2, which the original claim's "(HA >= 2)" characterisation excludes. -/
theorem get_handicap_spec (t : Sgf_game_tree) :
    (t.root.get_raw [72, 65] = none → get_handicap t = Except.ok none) ∧
    (∀ raw, t.root.get_raw [72, 65] = some raw →
      ((pyInt raw = none → get_handicap t = Except.error "ValueError") ∧
       (pyInt raw = some 0 → get_handicap t = Except.ok none) ∧
       (pyInt raw = some 1 → get_handicap t = Except.error "ValueError") ∧
       (∀ h, pyInt raw = some h → h ≠ 0 → h ≠ 1 →
         get_handicap t = Except.ok (some h)))) := by
  constructor
  · intro hraw
    simp [get_handicap, hraw]
  · intro raw hraw
    refine ⟨?_, ?_, ?_, ?_⟩
    · intro hint
      simp [get_handicap, hraw, hint]
    · intro hint
      simp [get_handicap, hraw, hint]
    · intro hint
      simp [get_handicap, hraw, hint]
    · intro h hint h0 h1
      simp [get_handicap, hraw, hint, h0, h1]

/-- C8 counterexample: `HA[-2]` parses, and `get_handicap` returns the
integer −2, which is not ≥ 2 — the code checks only for 0 and 1, so the
claim's "otherwise (HA >= 2)" case analysis is wrong for negative values. -/
theorem get_handicap_negative_counterexample :
    (read_sgf (pyBytes "(;HA[-2])")).map get_handicap =
      Except.ok (Except.ok (some (-2))) ∧ ¬(2 : Int) ≤ -2 :=
  ⟨rfl, by norm_num⟩

/-- Witness for C8: `HA[0]` yields "none" and `HA[1]` is rejected, on
concrete parsed trees. -/
theorem get_handicap_spec_witness :
    get_handicap ⟨[⟨[([72, 65], [[48]])]⟩], ⟨[([72, 65], [[48]])]⟩, 19⟩ =
      Except.ok none ∧
    get_handicap ⟨[⟨[([72, 65], [[49]])]⟩], ⟨[([72, 65], [[49]])]⟩, 19⟩ =
      Except.error "ValueError" := by
  constructor
  · exact (((get_handicap_spec
      ⟨[⟨[([72, 65], [[48]])]⟩], ⟨[([72, 65], [[48]])]⟩, 19⟩).2 [48] rfl).2.1 rfl)
  · exact (((get_handicap_spec
      ⟨[⟨[([72, 65], [[49]])]⟩], ⟨[([72, 65], [[49]])]⟩, 19⟩).2 [49] rfl).2.2.1 rfl)

/-- `Node.get_move` (lines 172-194): try `B` (colour byte 98 = `'b'`), then
`W` (byte 119 = `'w'`); the property's first raw value is interpreted as a
point (a `ValueError` propagates); neither property means no move. -/
def get_move (n : PNode) (size : Int) :
    Except String (Option (Nat × Option (Int × Int))) :=
  match n.lookup [66] with
  | some values =>
    match values.head? with
    | none => Except.error "IndexError"
    | some v => (interpret_point v size).map (fun pt => some (98, pt))
  | none =>
    match n.lookup [87] with
    | some values =>
      match values.head? with
      | none => Except.error "IndexError"
      | some v => (interpret_point v size).map (fun pt => some (119, pt))
    | none => Except.ok none

/-- `Node.get_setup_commands` (lines 196-217): interpret each of `AB`,
`AW`, `AE` as a compressed point list, an absent property (`KeyError`)
giving the empty set; a `ValueError` from interpretation propagates. -/
def get_setup_commands (n : PNode) (size : Int) :
    Except String (Finset (Int × Int) × Finset (Int × Int) × Finset (Int × Int)) := do
  let bp ← match n.get_list [65, 66] with
    | none => Except.ok (∅ : Finset (Int × Int))
    | some l => interpret_compressed_point_list l size
  let wp ← match n.get_list [65, 87] with
    | none => Except.ok (∅ : Finset (Int × Int))
    | some l => interpret_compressed_point_list l size
  let ep ← match n.get_list [65, 69] with
    | none => Except.ok (∅ : Finset (Int × Int))
    | some l => interpret_compressed_point_list l size
  pure (bp, wp, ep)

/-- `Node.has_setup_commands` (lines 219-221). -/
def has_setup_commands (n : PNode) : Bool :=
  n.has_prop [65, 66] || n.has_prop [65, 87] || n.has_prop [65, 69]

/-- Modelled from the spec: the external `gomill.boards` module is imported
by `sgf_reader.py` but missing from `src/`.  Spec section 6: `Board(size)`
constructs a board, and `apply_setup(black_points, white_points,
empty_points)` places stones and returns whether the resulting
configuration is legal (no point claimed by more than one colour). -/
structure Board : Type where
  size : Int
  black : Finset (Int × Int)
  white : Finset (Int × Int)
  deriving DecidableEq

/-- Modelled from the spec: `Board(size)` starts empty. -/
def Board.new (size : Int) : Board := ⟨size, ∅, ∅⟩

/-- Modelled from the spec: place the black and white stones (removing the
empty markers) and report legality as the absence of a point claimed by
both colours. -/
def Board.apply_setup (b : Board) (bp wp ep : Finset (Int × Int)) : Board × Bool :=
  let bl := (b.black ∪ bp) \ ep
  let wh := (b.white ∪ wp) \ ep
  (⟨b.size, bl, wh⟩, decide (bl ∩ wh = ∅))

/-- The move-collecting loop of `get_setup_and_moves` (lines 332-338): walk
the nodes after the root in order; any setup property is the format
violation "setup commands after the root node"; each node carrying a move
contributes its `(colour, coords)` pair, in document order. -/
def walkMoves (size : Int) : List PNode → Except String (List (Nat × Option (Int × Int)))
  | [] => Except.ok []
  | n :: rest =>
    if has_setup_commands n then Except.error "setup commands after the root node"
    else do
      let mv ← get_move n size
      let ms ← walkMoves size rest
      match mv with
      | none => pure ms
      | some m => pure (m :: ms)

/-- `Sgf_game_tree.get_setup_and_moves` (lines 306-339): build a board of
the tree's size; if the root has `AB` or `AW` stones, apply them (an
illegal position is the format violation "setup position not legal"); then
collect the moves of the remaining nodes with `walkMoves`. -/
def get_setup_and_moves (t : Sgf_game_tree) :
    Except String (Board × List (Nat × Option (Int × Int))) :=
  match t.nodes with
  | [] => Except.error "IndexError"
  | root :: rest => do
    let scs ← get_setup_commands root t.size
    let p :=
      if scs.1 ≠ ∅ ∨ scs.2.1 ≠ ∅ then
        (Board.new t.size).apply_setup scs.1 scs.2.1 scs.2.2
      else (Board.new t.size, true)
    if p.2 = false then Except.error "setup position not legal"
    else do
      let moves ← walkMoves t.size rest
      pure (p.1, moves)

/-- The move a node contributes on the success path: `get_move`'s value
when it succeeds, nothing otherwise. -/
def moveOf (size : Int) (n : PNode) : Option (Nat × Option (Int × Int)) :=
  match get_move n size with
  | Except.ok mv => mv
  | Except.error _ => none

theorem walkMoves_ok_filterMap (size : Int) :
    ∀ ns ms, walkMoves size ns = Except.ok ms → ms = ns.filterMap (moveOf size) := by
  intro ns
  induction ns with
  | nil =>
    intro ms h
    simp only [walkMoves, Except.ok.injEq] at h
    simp [← h]
  | cons n rest ih =>
    intro ms h
    rw [walkMoves] at h
    split_ifs at h with hset
    match hmv : get_move n size with
    | Except.error e => rw [hmv] at h; exact absurd h (by simp [exceptErrBind])
    | Except.ok mv =>
      rw [hmv, exceptOkBind] at h
      match hrec : walkMoves size rest with
      | Except.error e => rw [hrec] at h; exact absurd h (by simp [exceptErrBind])
      | Except.ok ms' =>
        rw [hrec, exceptOkBind] at h
        have hms' := ih ms' hrec
        match mv with
        | none =>
          simp only [exceptPure, Except.ok.injEq] at h
          subst h
          simp [List.filterMap_cons, moveOf, hmv, hms']
        | some m =>
          simp only [exceptPure, Except.ok.injEq] at h
          subst h
          simp [List.filterMap_cons, moveOf, hmv, hms']

theorem walkMoves_err_of_setup (size : Int) :
    ∀ ns, (∃ n ∈ ns, has_setup_commands n = true) →
      ∃ e, walkMoves size ns = Except.error e := by
  intro ns
  induction ns with
  | nil =>
    rintro ⟨n, hn, -⟩
    simp at hn
  | cons m rest ih =>
    rintro ⟨n, hn, hset⟩
    by_cases hm : has_setup_commands m
    · exact ⟨"setup commands after the root node", by rw [walkMoves, if_pos hm]⟩
    · have hn' : n ∈ rest := by
        rcases List.mem_cons.mp hn with h | h
        · subst h; exact absurd hset (by simp [hm])
        · exact h
      obtain ⟨e, he⟩ := ih ⟨n, hn', hset⟩
      match hmv : get_move m size with
      | Except.error e2 =>
        exact ⟨e2, by rw [walkMoves, if_neg hm, hmv, exceptErrBind]⟩
      | Except.ok mv =>
        exact ⟨e, by rw [walkMoves, if_neg hm, hmv, exceptOkBind, he, exceptErrBind]⟩

/-- C9: `get_setup_and_moves` fails whenever any node after the root
carries `AB`, `AW` or `AE` (with "setup commands after the root node" when
nothing fails earlier); and whenever it succeeds, the returned list is the
moves contributed by each node after the root that contains one, as
`(colour, coordinate-or-pass)` pairs in document order. -/
theorem setup_and_moves_spec (t : Sgf_game_tree) :
    ((∃ n ∈ t.nodes.tail, has_setup_commands n = true) →
      ∃ e, get_setup_and_moves t = Except.error e) ∧
    (∀ b ms, get_setup_and_moves t = Except.ok (b, ms) →
      ms = t.nodes.tail.filterMap (moveOf t.size)) := by
  obtain ⟨nodes, rt, sz⟩ := t
  cases nodes with
  | nil =>
    constructor
    · rintro ⟨n, hn, -⟩
      simp at hn
    · intro b ms h
      simp [get_setup_and_moves] at h
  | cons root rest =>
    constructor
    · rintro ⟨n, hn, hset⟩
      simp only [List.tail_cons] at hn
      rw [get_setup_and_moves]
      simp only
      match hscs : get_setup_commands root sz with
      | Except.error e => exact ⟨e, by rw [exceptErrBind]⟩
      | Except.ok scs =>
        rw [exceptOkBind]
        set p := if scs.1 ≠ ∅ ∨ scs.2.1 ≠ ∅ then
            (Board.new sz).apply_setup scs.1 scs.2.1 scs.2.2
          else (Board.new sz, true) with hp
        by_cases hleg : p.2 = false
        · exact ⟨"setup position not legal", by rw [if_pos hleg]⟩
        · rw [if_neg hleg]
          obtain ⟨e, he⟩ := walkMoves_err_of_setup sz rest ⟨n, hn, hset⟩
          exact ⟨e, by rw [he, exceptErrBind]⟩
    · intro b ms h
      simp only [List.tail_cons]
      rw [get_setup_and_moves] at h
      simp only at h
      match hscs : get_setup_commands root sz with
      | Except.error e =>
        rw [hscs, exceptErrBind] at h
        exact absurd h (by simp)
      | Except.ok scs =>
        rw [hscs, exceptOkBind] at h
        set p := if scs.1 ≠ ∅ ∨ scs.2.1 ≠ ∅ then
            (Board.new sz).apply_setup scs.1 scs.2.1 scs.2.2
          else (Board.new sz, true) with hp
        by_cases hleg : p.2 = false
        · rw [if_pos hleg] at h
          exact absurd h (by simp)
        · rw [if_neg hleg] at h
          match hw : walkMoves sz rest with
          | Except.error e => rw [hw] at h; exact absurd h (by simp [exceptErrBind])
          | Except.ok ms' =>
            rw [hw, exceptOkBind] at h
            simp only [exceptPure, Except.ok.injEq, Prod.mk.injEq] at h
            rw [← h.2]
            exact walkMoves_ok_filterMap sz rest ms' hw

/-- Witness for C9: a tree whose second node carries `AB` fails, and a
setup-free game `(;)(B[aa])(W[])` yields its two moves (a stone and a pass)
in document order. -/
theorem setup_and_moves_spec_witness :
    (∃ e, get_setup_and_moves
        ⟨[⟨[([66], [[97, 97]])]⟩, ⟨[([65, 66], [[97, 98]])]⟩],
         ⟨[([66], [[97, 97]])]⟩, 19⟩ = Except.error e) ∧
    ([(98, some (18, 0)), (119, none)] : List (Nat × Option (Int × Int))) =
      ([⟨[([66], [[97, 97]])]⟩, ⟨[([87], [[]])]⟩] : List PNode).filterMap (moveOf 19) := by
  constructor
  · exact (setup_and_moves_spec
      ⟨[⟨[([66], [[97, 97]])]⟩, ⟨[([65, 66], [[97, 98]])]⟩],
       ⟨[([66], [[97, 97]])]⟩, 19⟩).1 ⟨⟨[([65, 66], [[97, 98]])]⟩, by simp, rfl⟩
  · exact (setup_and_moves_spec
      ⟨[⟨[]⟩, ⟨[([66], [[97, 97]])]⟩, ⟨[([87], [[]])]⟩], ⟨[]⟩, 19⟩).2
      (Board.new 19) [(98, some (18, 0)), (119, none)] rfl
